import Mathlib

/-! Shallow embedding of the halting-sequence core
(src/probe-rs/src/debug/halting/sequence.rs) of the probe-rs debugger.

Machine integers (u64) are modelled as Nat: the code performs only comparisons
and copies on addresses, file indices, lines and columns, so no overflow is
involved.  The possibly non-terminating while-loop over `steps_to` links is
modelled with an explicit fuel parameter: an outcome other than `outOfFuel`
for some fuel means the Rust loop terminates with that outcome, and
`outOfFuel` for every fuel means the Rust loop runs forever.

Types defined in sibling files that were not provided (Block, Instruction,
ColumnType conversions, SourceLocation resolution) are modelled from the
spec; each such definition carries a doc comment starting with
`Modelled from the spec:`. -/

/-- Errors of the debug core.  The real DebugError enum has many variants; the
halting core itself only ever constructs the WarnAndContinue variant and
propagates collaborator errors unchanged, so collaborator errors are modelled
by the numeric `other` variant. -/
inductive DebugError where
  | warnAndContinue (message : String)
  | other (code : Nat)
deriving DecidableEq

/-- Column of a source location: either the left edge of the line, or an
explicit one-based column number (probe-rs ColumnType). -/
inductive ColumnType where
  | LeftEdge
  | Column (c : Nat)
deriving DecidableEq

/-- Modelled from the spec: the From u64 conversion for ColumnType used by
`haltpoint_for_source_location`; 0 denotes the left edge of the line. -/
def ColumnType.fromNat : Nat → ColumnType
  | 0 => .LeftEdge
  | n + 1 => .Column (n + 1)

/-- One row of the decoded line-number program, as exposed by the gimli
collaborator: `(is_stmt, epilogue_begin, prologue_end, end_sequence,
file_index, line, column, address)`.  `line` models Option NonZeroU64. -/
structure LineRow where
  address : Nat
  file_index : Nat
  line : Option Nat
  column : ColumnType
  is_stmt : Bool
  prologue_end : Bool
  epilogue_begin : Bool
  end_sequence : Bool
deriving DecidableEq

/-- gimli language tag DW_LANG_C99. -/
def DW_LANG_C99 : Nat := 12
/-- gimli language tag DW_LANG_C11. -/
def DW_LANG_C11 : Nat := 29
/-- gimli language tag DW_LANG_C17. -/
def DW_LANG_C17 : Nat := 44

/-- Translation of the free function `is_prologue_complete` of sequence.rs:
test if the current row signals that we are beyond the prologue. -/
def is_prologue_complete (row : LineRow) (program_language : Nat)
    (previous_row : Option LineRow) : Bool :=
  let prologue_completed := row.prologue_end
  if !prologue_completed
      && (program_language == DW_LANG_C99 || program_language == DW_LANG_C11
          || program_language == DW_LANG_C17) then
    match previous_row with
    | some prev_row =>
      if row.end_sequence
          || (row.is_stmt
              && (row.file_index == prev_row.file_index
                  && (row.line != prev_row.line || row.line.isNone))) then
        true
      else prologue_completed
    | none => prologue_completed
  else prologue_completed

/-- Role of an instruction: ordinary code, prologue code, or a legitimate
halt (breakpoint) location. -/
inductive InstructionRole where
  | ordinary
  | prologue
  | haltLocation
deriving DecidableEq

/-- Whether the role is a halt location (Instruction role predicate used by
the queries of sequence.rs). -/
def InstructionRole.is_halt_location : InstructionRole → Bool
  | .haltLocation => true
  | _ => false

/-- One decoded line-table row, owned by a Block. -/
structure Instruction where
  address : Nat
  file_index : Nat
  line : Option Nat
  column : ColumnType
  role : InstructionRole
deriving DecidableEq

/-- Modelled from the spec: `Instruction::from_line_row` (instruction.rs is
not under src/).  An instruction is a halt location iff it is flagged a
statement row after the prologue is complete, or it is an epilogue-begin row;
otherwise it is prologue code while the prologue is incomplete, else
ordinary. -/
def Instruction.from_line_row (prologue_completed : Bool) (row : LineRow)
    (_previous_row : Option LineRow) : Instruction :=
  { address := row.address
    file_index := row.file_index
    line := row.line
    column := row.column
    role :=
      if (row.is_stmt && prologue_completed) || row.epilogue_begin then .haltLocation
      else if prologue_completed then .ordinary
      else .prologue }

/-- A stepping-granularity grouping of consecutive instructions (block.rs is
not under src/; the fields are those the spec's data model lists). -/
structure Block where
  is_inlined : Bool
  steps_to : Option Nat
  instructions : List Instruction
deriving DecidableEq

/-- Modelled from the spec: `included_addresses` is the lowest/highest
instruction address in the block, or none for an empty block. -/
def Block.included_addresses (b : Block) : Option (Nat × Nat) :=
  match b.instructions with
  | [] => none
  | i :: rest =>
    some ((rest.map Instruction.address).foldl min i.address,
          (rest.map Instruction.address).foldl max i.address)

/-- Modelled from the spec: `Block::contains_address` tests membership of the
`included_addresses` range. -/
def Block.contains_address (b : Block) (address : Nat) : Bool :=
  match b.included_addresses with
  | none => false
  | some r => decide (r.1 ≤ address) && decide (address ≤ r.2)

/-- Modelled from the spec: the externally produced human-readable source
location; its contents are opaque to the halting core. -/
structure SourceLocation where
  path : Nat
  line : Option Nat
  column : Option Nat
deriving DecidableEq

/-- The externally visible result of a successful resolution. -/
structure VerifiedBreakpoint where
  address : Nat
  source_location : SourceLocation
deriving DecidableEq

/-- The unit of resolution.  The borrowed debug-info and compilation-unit
references of the Rust struct are modelled as explicit parameters of the
queries (the spec's dependency-injection option), keeping Sequence a plain
value type. -/
structure Sequence where
  address_range : Nat × Nat
  last_halt_instruction : Option Nat
  blocks : List Block
deriving DecidableEq

/-- `Sequence::len`: the number of blocks. -/
def Sequence.len (s : Sequence) : Nat := s.blocks.length

/-- Modelled from the spec: the `Block::new` collaborator (block.rs is not
under src/).  It carves one block off the instruction cursor, consuming at
least one instruction; the precise grouping rule is the spec's open
question, so it is kept as a parameter.  Consumption is expressed in the
type: the remaining list is strictly shorter. -/
def BlockStep : Type :=
  (l : List Instruction) → l ≠ [] →
    Except DebugError (Block × {l2 : List Instruction // l2.length < l.length})

/-- Translation of `Sequence::build_blocks`: repeatedly carve a block off the
cursor and push it, until the cursor is exhausted.  The fuel is an upper
bound on the number of iterations; from_line_sequence passes the instruction
count, which always suffices because every step consumes. -/
def build_blocks (step : BlockStep) : Nat → List Instruction → Except DebugError (List Block)
  | _, [] => .ok []
  | 0, _ :: _ => .ok []
  | fuel + 1, x :: xs =>
    match step (x :: xs) (List.cons_ne_nil x xs) with
    | .error e => .error e
    | .ok (b, rest) =>
      match build_blocks step fuel rest.val with
      | .error e => .error e
      | .ok bs => .ok (b :: bs)

/-- Translation of the row-decoding while-loop of
`Sequence::from_line_sequence`.  The row stream is a list of next_row
results: an `Except.error` entry models `next_row` returning Err (the
`while let Ok(Some(..))` loop then simply stops), list exhaustion models
Ok(None).  Returns the collected instruction buffer and the final
`last_halt_instruction`. -/
def decode_loop (program_language : Nat) :
    List (Except DebugError LineRow) → Bool → Option LineRow → Option Nat →
      List Instruction × Option Nat
  | [], _, _, last_halt => ([], last_halt)
  | .error _ :: _, _, _, last_halt => ([], last_halt)
  | .ok row :: rest, prologue_completed, previous_row, last_halt =>
    let prologue_completed :=
      if !prologue_completed && is_prologue_complete row program_language previous_row then
        true
      else prologue_completed
    if row.end_sequence then ([], last_halt)
    else
      let last_halt :=
        if row.is_stmt || row.epilogue_begin then some row.address else last_halt
      let tail := decode_loop program_language rest prologue_completed (some row) last_halt
      (Instruction.from_line_row prologue_completed row previous_row :: tail.1, tail.2)

/-- One sequence of the decoded line-number program, as produced by the
gimli collaborator: its [start, stop) address range and its resumable row
cursor. -/
structure LineSequenceModel where
  start : Nat
  stop : Nat
  rows : List (Except DebugError LineRow)

/-- Translation of `Sequence::from_line_sequence`: decode the rows of the
sequence, then partition the instruction buffer into blocks. -/
def from_line_sequence (step : BlockStep) (program_language : Nat)
    (line_sequence : LineSequenceModel) : Except DebugError Sequence :=
  let decoded := decode_loop program_language line_sequence.rows false none none
  match build_blocks step decoded.1.length decoded.1 with
  | .error e => .error e
  | .ok blocks =>
    .ok { address_range := (line_sequence.start, line_sequence.stop)
          last_halt_instruction := decoded.2
          blocks := blocks }

/-- The compilation unit, as far as the halting core observes it: whether it
has a line program, and its language tag. -/
structure UnitInfoModel where
  line_program : Option Unit
  language : Nat

/-- The debug-info collaborators consumed by `Sequence::from_address`:
compilation-unit resolution and the decoded line-number program's sequence
list (the program/sequences calls, each of which may fail). -/
structure DebugInfoModel where
  compile_unit_info : Nat → Except DebugError UnitInfoModel
  line_sequences : Except DebugError (List LineSequenceModel)

/-- Message of the first WarnAndContinue failure of from_address. -/
def no_line_program_message : String :=
  "The specified source location does not have any line_program information available. Please consider using instruction level stepping."

/-- Message of the second WarnAndContinue failure of from_address. -/
def no_line_info_message : String :=
  "The specified source location does not have any line information available. Please consider using instruction level stepping."

/-- Message of the third WarnAndContinue failure of from_address. -/
def no_valid_halt_message : String :=
  "Could not find valid instruction locations for this address. Consider using instruction level stepping."

/-- Translation of `Sequence::from_address`. -/
def from_address (step : BlockStep) (debug_info : DebugInfoModel)
    (program_counter : Nat) : Except DebugError Sequence :=
  match debug_info.compile_unit_info program_counter with
  | .error e => .error e
  | .ok program_unit =>
    match program_unit.line_program with
    | none => .error (.warnAndContinue no_line_program_message)
    | some _ =>
      match debug_info.line_sequences with
      | .error e => .error e
      | .ok line_sequences =>
        match line_sequences.find? (fun line_sequence =>
            decide (line_sequence.start ≤ program_counter)
              && decide (program_counter < line_sequence.stop)) with
        | none => .error (.warnAndContinue no_line_info_message)
        | some line_sequence =>
          match from_line_sequence step program_unit.language line_sequence with
          | .error e => .error e
          | .ok sequence =>
            if sequence.len = 0 then
              .error (.warnAndContinue no_valid_halt_message)
            else .ok sequence

/-- The instruction predicate of the address queries:
`instruction.address >= address && instruction.role.is_halt_location()`. -/
def haltPred (address : Nat) (instruction : Instruction) : Bool :=
  decide (address ≤ instruction.address) && instruction.role.is_halt_location

/-- The linked-block lookup of the while-let loops:
`blocks.iter().find(|next_block| linked_address.is_some() &&
linked_address.map(|la| next_block.contains_address(la)).unwrap_or(false))`. -/
def find_linked_block (blocks : List Block) (linked_address : Option Nat) : Option Block :=
  blocks.find? fun next_block =>
    linked_address.isSome
      && (linked_address.map (fun la => next_block.contains_address la)).getD false

/-- Outcome of the steps_to traversal loop: a halt instruction was found, the
chain ended (no block contains the linked address, or steps_to was none), or
the fuel ran out (the unguarded Rust loop is still running). -/
inductive ChainOutcome where
  | hit (instruction : Instruction)
  | ended
  | outOfFuel
deriving DecidableEq

/-- Translation of the steps_to while-let traversal shared by
`haltpoint_for_address` and `haltpoint_for_next_block`, with fuel making the
unguarded loop a total function. -/
def chain_loop (blocks : List Block) (address : Nat) : Nat → Option Nat → ChainOutcome
  | 0, _ => .outOfFuel
  | fuel + 1, linked_address =>
    match find_linked_block blocks linked_address with
    | none => .ended
    | some linked_block =>
      match linked_block.instructions.find? (haltPred address) with
      | some instruction => .hit instruction
      | none => chain_loop blocks address fuel linked_block.steps_to

/-- The loop of chain_loop, run with every fuel bound, never completes: this
is how the embedding expresses that the unguarded Rust while-loop runs
forever. -/
def chain_diverges (blocks : List Block) (address : Nat) (linked_address : Option Nat) : Prop :=
  ∀ fuel, chain_loop blocks address fuel linked_address = .outOfFuel

/-- The halt-instruction search of `Sequence::haltpoint_for_address`: find
the containing block, scan it, then follow the steps_to chain. -/
def halt_instruction_for_address (s : Sequence) (fuel : Nat) (address : Nat) :
    Option Instruction :=
  match s.blocks.find? (fun block => block.contains_address address) with
  | none => none
  | some block =>
    match block.instructions.find? (haltPred address) with
    | some instruction => some instruction
    | none =>
      match chain_loop s.blocks address fuel block.steps_to with
      | .hit instruction => some instruction
      | _ => none

/-- The address-to-source-location resolution collaborator
(`SourceLocation::from_instruction`), injected into the queries in place of
the borrowed debug_info/program_unit references. -/
def Resolver : Type := Instruction → Option SourceLocation

/-- Translation of `Sequence::haltpoint_for_address`. -/
def haltpoint_for_address (resolve : Resolver) (s : Sequence) (fuel : Nat)
    (address : Nat) : Option VerifiedBreakpoint :=
  (halt_instruction_for_address s fuel address).bind fun instruction =>
    (resolve instruction).map fun source_location =>
      { address := instruction.address, source_location := source_location }

/-- The halt-instruction search of `Sequence::haltpoint_for_next_block`:
find the containing block, then follow the steps_to chain without scanning
the containing block itself. -/
def halt_instruction_for_next_block (s : Sequence) (fuel : Nat) (address : Nat) :
    Option Instruction :=
  match s.blocks.find? (fun block => block.contains_address address) with
  | none => none
  | some block =>
    match chain_loop s.blocks address fuel block.steps_to with
    | .hit instruction => some instruction
    | _ => none

/-- Translation of `Sequence::haltpoint_for_next_block`. -/
def haltpoint_for_next_block (resolve : Resolver) (s : Sequence) (fuel : Nat)
    (address : Nat) : Option VerifiedBreakpoint :=
  (halt_instruction_for_next_block s fuel address).bind fun instruction =>
    (resolve instruction).map fun source_location =>
      { address := instruction.address, source_location := source_location }

/-- `NonZeroU64::new`: none exactly for zero. -/
def nonZeroNew : Nat → Option Nat
  | 0 => none
  | n + 1 => some (n + 1)

/-- The exact-match predicate of `haltpoint_for_source_location`:
`matching_file_index == Some(location.file_index) && NonZeroU64::new(line) ==
location.line && ColumnType::from(column.unwrap_or(0)) == location.column`. -/
def exact_match_pred (matching_file_index : Option Nat) (line : Nat)
    (column : Option Nat) (location : Instruction) : Bool :=
  matching_file_index == some location.file_index
    && nonZeroNew line == location.line
    && ColumnType.fromNat (column.getD 0) == location.column

/-- The column-free fallback predicate of `haltpoint_for_source_location`. -/
def line_match_pred (matching_file_index : Option Nat) (line : Nat)
    (location : Instruction) : Bool :=
  matching_file_index == some location.file_index && nonZeroNew line == location.line

/-- The per-block match of `haltpoint_for_source_location`: try an exact
match, else retry without the column specifier. -/
def best_match (matching_file_index : Option Nat) (line : Nat) (column : Option Nat)
    (block : Block) : Option Instruction :=
  match block.instructions.find? (exact_match_pred matching_file_index line column) with
  | some location => some location
  | none => block.instructions.find? (line_match_pred matching_file_index line)

/-- Translation of `Sequence::haltpoint_for_source_location`: the for-loop
with early return over blocks is List.findSome?; each block's match is
resolved through haltpoint_for_address. -/
def haltpoint_for_source_location (resolve : Resolver) (s : Sequence) (fuel : Nat)
    (matching_file_index : Option Nat) (line : Nat) (column : Option Nat) :
    Option VerifiedBreakpoint :=
  s.blocks.findSome? fun block =>
    (best_match matching_file_index line column block).bind fun matching_location =>
      haltpoint_for_address resolve s fuel matching_location.address

/-- Starting address of a block, for stating the sortedness of the block
vector (0 for the degenerate empty block). -/
def block_start (b : Block) : Nat :=
  (b.included_addresses.map Prod.fst).getD 0

/-! Concrete inputs used by witnesses. -/

/-- A resolver that always succeeds, echoing the instruction's coordinates. -/
def resolveW : Resolver := fun i =>
  some { path := i.file_index, line := i.line, column := none }

/-- A halt instruction at address 100 for the C2 witness. -/
def iW : Instruction :=
  { address := 100, file_index := 1, line := some 5, column := .LeftEdge,
    role := .haltLocation }

/-- A one-block sequence containing only iW. -/
def sW : Sequence :=
  { address_range := (100, 104), last_halt_instruction := some 100,
    blocks := [{ is_inlined := false, steps_to := none, instructions := [iW] }] }

/-- The breakpoint that haltpoint_for_address returns on sW at 100. -/
def bpW : VerifiedBreakpoint :=
  { address := 100, source_location := { path := 1, line := some 5, column := none } }

/-- The rows actually processed by the decode loop: the longest prefix of
successful next_row results that precedes the first decode error and the
first end-of-sequence row. -/
def processed_rows : List (Except DebugError LineRow) → List LineRow
  | [] => []
  | .error _ :: _ => []
  | .ok row :: rest => if row.end_sequence then [] else row :: processed_rows rest

/-- A concrete Block::new model: one block takes the whole remaining
instruction buffer (a grouping the spec's open question permits); it never
fails. -/
def blockStepAll : BlockStep := fun l h =>
  .ok ({ is_inlined := false, steps_to := none, instructions := l },
       ⟨[], by simpa using List.length_pos.mpr h⟩)

/-- A concrete Block::new model that emits blocks out of address order — the
possibility the source's own doc comment warns about ("likely to create
blocks that are out of sequence"): it first emits a block of everything
after the cursor head, then a block of the head. -/
def stepC7 : BlockStep := fun l h =>
  match l, h with
  | [], h => absurd rfl h
  | [x], _ =>
    .ok ({ is_inlined := false, steps_to := none, instructions := [x] },
         ⟨[], by simp⟩)
  | x :: y :: rest, _ =>
    .ok ({ is_inlined := false, steps_to := none, instructions := y :: rest },
         ⟨[x], by simp only [List.length_cons, List.length_nil]; omega⟩)

/-- Ordinary (non-halt) instruction at 100 of the cyclic pair. -/
def iC1a : Instruction :=
  { address := 100, file_index := 1, line := some 5, column := .LeftEdge,
    role := .ordinary }

/-- Ordinary (non-halt) instruction at 200 of the cyclic pair. -/
def iC1b : Instruction :=
  { address := 200, file_index := 1, line := some 6, column := .LeftEdge,
    role := .ordinary }

/-- Block at 100 whose steps_to links to 200. -/
def blkC1a : Block := { is_inlined := false, steps_to := some 200, instructions := [iC1a] }

/-- Block at 200 whose steps_to links back to 100: together with blkC1a its
steps_to links form a cycle. -/
def blkC1b : Block := { is_inlined := false, steps_to := some 100, instructions := [iC1b] }

/-- A sequence whose two blocks' steps_to links form a cycle and contain no
halt location. -/
def cycSeq : Sequence :=
  { address_range := (100, 300), last_halt_instruction := none,
    blocks := [blkC1a, blkC1b] }

/-- Instruction with a nonzero column for the C10 witness. -/
def iC10 : Instruction :=
  { address := 100, file_index := 2, line := some 10, column := .Column 5,
    role := .haltLocation }

/-- First decoded row of the C6 stream (a statement row at 256). -/
def rowC6a : LineRow :=
  { address := 256, file_index := 1, line := some 5, column := .LeftEdge,
    is_stmt := true, prologue_end := true, epilogue_begin := false,
    end_sequence := false }

/-- Second decoded row of the C6 stream, never reached because the error
precedes it. -/
def rowC6b : LineRow :=
  { address := 260, file_index := 1, line := some 6, column := .LeftEdge,
    is_stmt := true, prologue_end := false, epilogue_begin := false,
    end_sequence := false }

/-- A row stream in which the decoding collaborator reports an error after
the first row. -/
def lsC6 : LineSequenceModel :=
  { start := 256, stop := 300,
    rows := [.ok rowC6a, .error (.other 7), .ok rowC6b] }

/-- The instruction decoded from rowC6a (the prologue-end marker makes it a
halt location). -/
def iC6a : Instruction :=
  { address := 256, file_index := 1, line := some 5, column := .LeftEdge,
    role := .haltLocation }

/-- The truncated sequence that from_line_sequence actually returns on lsC6:
only the row before the error survives. -/
def seqC6 : Sequence :=
  { address_range := (256, 300), last_halt_instruction := some 256,
    blocks := [{ is_inlined := false, steps_to := none, instructions := [iC6a] }] }

/-- Row at 256 for the C7 stream. -/
def rowC7a : LineRow :=
  { address := 256, file_index := 1, line := some 5, column := .LeftEdge,
    is_stmt := true, prologue_end := true, epilogue_begin := false,
    end_sequence := false }

/-- Row at 512 for the C7 stream. -/
def rowC7b : LineRow :=
  { address := 512, file_index := 1, line := some 6, column := .LeftEdge,
    is_stmt := true, prologue_end := false, epilogue_begin := false,
    end_sequence := false }

/-- End-of-sequence row for the C7 stream. -/
def rowC7end : LineRow :=
  { address := 516, file_index := 1, line := none, column := .LeftEdge,
    is_stmt := false, prologue_end := false, epilogue_begin := false,
    end_sequence := true }

/-- A well-formed two-row stream for C7. -/
def lsC7 : LineSequenceModel :=
  { start := 256, stop := 516,
    rows := [.ok rowC7a, .ok rowC7b, .ok rowC7end] }

/-- Instruction decoded from rowC7a. -/
def iC7a : Instruction :=
  { address := 256, file_index := 1, line := some 5, column := .LeftEdge,
    role := .haltLocation }

/-- Instruction decoded from rowC7b. -/
def iC7b : Instruction :=
  { address := 512, file_index := 1, line := some 6, column := .LeftEdge,
    role := .haltLocation }

/-- The sequence from_line_sequence returns on lsC7 with stepC7: its blocks
start at 512 and then 256 — descending, and no re-sort is applied. -/
def seqC7 : Sequence :=
  { address_range := (256, 516), last_halt_instruction := some 512,
    blocks := [{ is_inlined := false, steps_to := none, instructions := [iC7b] },
               { is_inlined := false, steps_to := none, instructions := [iC7a] }] }

/-- Compilation unit with a line program, language C99, for the C3 witness. -/
def uW3 : UnitInfoModel := { line_program := some (), language := 12 }

/-- Debug-info collaborators for the C3 witness: unit resolution succeeds
everywhere, and the decoded program has the single sequence lsC7. -/
def diW3 : DebugInfoModel :=
  { compile_unit_info := fun _ => .ok uW3, line_sequences := .ok [lsC7] }

/-- First matching instruction for C5 (column 3). -/
def iC5a : Instruction :=
  { address := 100, file_index := 2, line := some 10, column := .Column 3,
    role := .haltLocation }

/-- Second matching instruction for C5, in a later block (column 7). -/
def iC5b : Instruction :=
  { address := 200, file_index := 2, line := some 10, column := .Column 7,
    role := .haltLocation }

/-- First block of the C5 double-match scenario. -/
def blkC5a : Block := { is_inlined := false, steps_to := none, instructions := [iC5a] }

/-- Second block of the C5 double-match scenario. -/
def blkC5b : Block := { is_inlined := false, steps_to := none, instructions := [iC5b] }

/-- Sequence with two blocks that both match file 2 line 10, in address
order. -/
def sW5 : Sequence :=
  { address_range := (100, 300), last_halt_instruction := some 200,
    blocks := [blkC5a, blkC5b] }

/-- The breakpoint the C5 query returns: the match of the first block. -/
def bpW5 : VerifiedBreakpoint :=
  { address := 100, source_location := { path := 2, line := some 10, column := none } }

/-- Containing block for the C9 witness (no halt location of its own). -/
def blkW9a : Block :=
  { is_inlined := false, steps_to := some 200,
    instructions := [{ address := 100, file_index := 1, line := some 5,
                       column := .LeftEdge, role := .ordinary }] }

/-- Linked block for the C9 witness, holding the halt location at 200. -/
def blkW9b : Block :=
  { is_inlined := false, steps_to := none,
    instructions := [{ address := 200, file_index := 1, line := some 6,
                       column := .LeftEdge, role := .haltLocation }] }

/-- Two-block sequence for the C9 witness. -/
def sW9 : Sequence :=
  { address_range := (100, 300), last_halt_instruction := some 200,
    blocks := [blkW9a, blkW9b] }

/-- The breakpoint the C9 witness query returns. -/
def bpW9 : VerifiedBreakpoint :=
  { address := 200, source_location := { path := 1, line := some 6, column := none } }

/-- Statement row at 100 for the C8 witness. -/
def rowC8a : LineRow :=
  { address := 100, file_index := 1, line := some 5, column := .LeftEdge,
    is_stmt := true, prologue_end := true, epilogue_begin := false,
    end_sequence := false }

/-- Non-statement row at 104 for the C8 witness. -/
def rowC8b : LineRow :=
  { address := 104, file_index := 1, line := some 5, column := .LeftEdge,
    is_stmt := false, prologue_end := false, epilogue_begin := false,
    end_sequence := false }

/-- Epilogue-begin row at 108 for the C8 witness (the last halt location). -/
def rowC8c : LineRow :=
  { address := 108, file_index := 1, line := some 6, column := .LeftEdge,
    is_stmt := false, prologue_end := false, epilogue_begin := true,
    end_sequence := false }

/-- End-of-sequence row at 112 for the C8 witness; it must not update
last_halt_instruction. -/
def rowC8end : LineRow :=
  { address := 112, file_index := 1, line := none, column := .LeftEdge,
    is_stmt := true, prologue_end := false, epilogue_begin := false,
    end_sequence := true }

/-- Row stream for the C8 witness. -/
def lsC8 : LineSequenceModel :=
  { start := 100, stop := 112,
    rows := [.ok rowC8a, .ok rowC8b, .ok rowC8c, .ok rowC8end] }

/-- The sequence decoded from lsC8: three instructions in one block, with
last_halt_instruction recording the epilogue-begin row at 108 (the
end-of-sequence row at 112 did not update it). -/
def seqC8 : Sequence :=
  { address_range := (100, 112), last_halt_instruction := some 108,
    blocks := [{ is_inlined := false, steps_to := none,
                 instructions :=
                   [{ address := 100, file_index := 1, line := some 5,
                      column := .LeftEdge, role := .haltLocation },
                    { address := 104, file_index := 1, line := some 5,
                      column := .LeftEdge, role := .ordinary },
                    { address := 108, file_index := 1, line := some 6,
                      column := .LeftEdge, role := .haltLocation }] }] }

/-- The last-halt accumulator of the decode loop: a statement or
epilogue-begin row overwrites the accumulator with its address. -/
def last_halt_step (acc : Option Nat) (row : LineRow) : Option Nat :=
  if row.is_stmt || row.epilogue_begin then some row.address else acc

/-! Helper lemmas. -/

theorem haltPred_eq_true {address : Nat} {i : Instruction}
    (h : haltPred address i = true) :
    address ≤ i.address ∧ i.role.is_halt_location = true := by
  simpa [haltPred, Bool.and_eq_true, decide_eq_true_eq] using h

theorem chain_loop_hit {blocks : List Block} {address : Nat} {fuel : Nat}
    {la : Option Nat} {i : Instruction}
    (h : chain_loop blocks address fuel la = .hit i) :
    haltPred address i = true := by
  induction fuel generalizing la with
  | zero => simp [chain_loop] at h
  | succ f ih =>
    rw [chain_loop] at h
    split at h
    · exact ChainOutcome.noConfusion h
    · split at h
      · cases h
        exact List.find?_some (by assumption)
      · exact ih h

theorem halt_instruction_for_address_pred {s : Sequence} {fuel address : Nat}
    {i : Instruction} (h : halt_instruction_for_address s fuel address = some i) :
    haltPred address i = true := by
  unfold halt_instruction_for_address at h
  split at h
  · exact Option.noConfusion h
  · split at h
    · cases h
      exact List.find?_some (by assumption)
    · split at h
      · cases h
        exact chain_loop_hit (by assumption)
      · exact Option.noConfusion h

theorem breakpoint_address {resolve : Resolver} {x : Option Instruction}
    {bp : VerifiedBreakpoint}
    (h : (x.bind fun instruction =>
        (resolve instruction).map fun source_location =>
          { address := instruction.address, source_location := source_location }) = some bp) :
    ∃ i, x = some i ∧ bp.address = i.address := by
  rcases Option.bind_eq_some.mp h with ⟨i, hx, hmap⟩
  rcases Option.map_eq_some'.mp hmap with ⟨sl, hsl, hbp⟩
  exact ⟨i, hx, by rw [← hbp]⟩

/-! Claims. -/

/-- C2: for every sequence and every address a, if haltpoint_for_address a
returns a VerifiedBreakpoint, its address field is at least a — whether the
hit was found inside the containing block or by following the steps_to
chain. -/
theorem claim_C2 (resolve : Resolver) (s : Sequence) (fuel address : Nat)
    (bp : VerifiedBreakpoint)
    (h : haltpoint_for_address resolve s fuel address = some bp) :
    address ≤ bp.address := by
  rcases breakpoint_address (h := h) with ⟨i, hi, hbp⟩
  rcases haltPred_eq_true (halt_instruction_for_address_pred hi) with ⟨hle, _⟩
  omega

/-- C2 witness: on the concrete sequence sW the query at 100 succeeds, and
claim_C2 applies. -/
theorem claim_C2_witness :
    haltpoint_for_address resolveW sW 3 100 = some bpW ∧ 100 ≤ bpW.address :=
  ⟨by decide, claim_C2 resolveW sW 3 100 bpW (by decide)⟩

/-- C4: the prologue-complete predicate is true iff the row carries an
explicit prologue-end marker, or the language is C99/C11/C17, a previous row
exists, and the row is an end-of-sequence row or a statement row with the
previous row's file index and a different (or unset) line; false in all
other cases, including when there is no previous row. -/
theorem claim_C4 (row : LineRow) (lang : Nat) (prev : Option LineRow) :
    is_prologue_complete row lang prev = true ↔
      (row.prologue_end = true ∨
        ((lang = DW_LANG_C99 ∨ lang = DW_LANG_C11 ∨ lang = DW_LANG_C17) ∧
          ∃ p, prev = some p ∧
            (row.end_sequence = true ∨
              (row.is_stmt = true ∧ row.file_index = p.file_index ∧
                (row.line ≠ p.line ∨ row.line = none))))) := by
  cases hpe : row.prologue_end with
  | true => simp [is_prologue_complete, hpe]
  | false =>
    cases prev with
    | none =>
      have hval : is_prologue_complete row lang none = row.prologue_end := by
        simp [is_prologue_complete]
      rw [hval, hpe]
      simp [hpe]
    | some p =>
      unfold is_prologue_complete
      rw [hpe]
      simp only [Bool.not_false, Bool.true_and, hpe, Bool.false_eq_true, false_or]
      by_cases hlang : lang = DW_LANG_C99 ∨ lang = DW_LANG_C11 ∨ lang = DW_LANG_C17
      · have hb : (lang == DW_LANG_C99 || lang == DW_LANG_C11 || lang == DW_LANG_C17) = true := by
          rcases hlang with h | h | h <;> simp [h]
        rw [if_pos hb]
        by_cases hcond : row.end_sequence = true ∨
            (row.is_stmt = true ∧ row.file_index = p.file_index ∧
              (row.line ≠ p.line ∨ row.line = none))
        · have hc : (row.end_sequence
              || (row.is_stmt
                  && (row.file_index == p.file_index
                      && (row.line != p.line || row.line.isNone)))) = true := by
            simp only [Bool.or_eq_true, Bool.and_eq_true, beq_iff_eq, bne_iff_ne,
              Option.isNone_iff_eq_none]
            tauto
          rw [if_pos hc]
          simp only [true_iff]
          exact ⟨hlang, p, rfl, hcond⟩
        · have hc : (row.end_sequence
              || (row.is_stmt
                  && (row.file_index == p.file_index
                      && (row.line != p.line || row.line.isNone)))) = false := by
            rw [Bool.eq_false_iff]
            intro hcontra
            apply hcond
            simpa only [Bool.or_eq_true, Bool.and_eq_true, beq_iff_eq, bne_iff_ne,
              Option.isNone_iff_eq_none] using hcontra
          rw [if_neg (by simp [hc])]
          simp only [Bool.false_eq_true, false_iff]
          rintro ⟨-, q, hq, hcq⟩
          cases hq
          exact hcond hcq
      · have hb : (lang == DW_LANG_C99 || lang == DW_LANG_C11 || lang == DW_LANG_C17) = false := by
          simp only [Bool.or_eq_false_iff, beq_eq_false_iff_ne]
          tauto
        rw [if_neg (by simp [hb])]
        simp only [Bool.false_eq_true, false_iff]
        rintro ⟨hcontra, -⟩
        exact hlang hcontra

theorem cyc_step_100 (f : Nat) :
    chain_loop cycSeq.blocks 100 (f + 1) (some 100)
      = chain_loop cycSeq.blocks 100 f (some 200) := rfl

theorem cyc_step_200 (f : Nat) :
    chain_loop cycSeq.blocks 100 (f + 1) (some 200)
      = chain_loop cycSeq.blocks 100 f (some 100) := rfl

theorem cyc_loop_aux : ∀ (fuel : Nat) (la : Option Nat),
    la = some 100 ∨ la = some 200 →
    chain_loop cycSeq.blocks 100 fuel la = .outOfFuel := by
  intro fuel
  induction fuel with
  | zero => intro la _; rfl
  | succ f ih =>
    rintro la (rfl | rfl)
    · rw [cyc_step_100]
      exact ih _ (Or.inr rfl)
    · rw [cyc_step_200]
      exact ih _ (Or.inl rfl)

/-- C1 counterexample: the steps_to traversal is not guarded by any
maximum-hop count.  On the concrete sequence cycSeq, whose two blocks'
steps_to links form a cycle, haltpoint_for_address at address 100 finds the
containing block blkC1a, finds no halt location inside it, and enters the
steps_to walk at blkC1a.steps_to — which never completes for any fuel
bound: the unguarded Rust loop runs forever instead of terminating. -/
theorem claim_C1_counterexample :
    cycSeq.blocks.find? (fun block => block.contains_address 100) = some blkC1a ∧
    blkC1a.instructions.find? (haltPred 100) = none ∧
    chain_diverges cycSeq.blocks 100 blkC1a.steps_to := by
  refine ⟨by decide, by decide, ?_⟩
  intro fuel
  exact cyc_loop_aux fuel _ (Or.inr rfl)

/-- C1 (amended): the steps_to traversal of haltpoint_for_address and
haltpoint_for_next_block has no maximum-hop guard.  Its outcome is decided
by the chain alone: whenever some number of hops suffices to reach a halt
location hit or the end of the chain, every larger hop allowance yields the
same outcome — while a cyclic chain with no hit (see the counterexample)
keeps the loop running forever. -/
theorem claim_C1_amended (blocks : List Block) (address : Nat) (la : Option Nat)
    (f g : Nat) (hfg : f ≤ g)
    (h : chain_loop blocks address f la ≠ .outOfFuel) :
    chain_loop blocks address g la = chain_loop blocks address f la := by
  induction f generalizing g la with
  | zero => exact absurd rfl h
  | succ f ih =>
    obtain ⟨g, rfl⟩ : ∃ g2, g = g2 + 1 := ⟨g - 1, by omega⟩
    rw [chain_loop] at h
    rw [chain_loop, chain_loop]
    cases hfb : find_linked_block blocks la with
    | none => simp only [hfb]
    | some lb =>
      simp only [hfb] at h ⊢
      cases hfind : lb.instructions.find? (haltPred address) with
      | some i => simp only [hfind]
      | none =>
        simp only [hfind] at h ⊢
        exact ih _ _ (by omega) h

/-- C1 amended witness: on the empty block list the chain ends at fuel 1,
and fuel 2 gives the same outcome. -/
theorem claim_C1_amended_witness :
    (1 : Nat) ≤ 2 ∧ chain_loop [] 0 1 none ≠ ChainOutcome.outOfFuel ∧
    chain_loop [] 0 2 none = chain_loop [] 0 1 none :=
  ⟨by decide, by decide, claim_C1_amended [] 0 none 1 2 (by decide) (by decide)⟩

/-- C10: with a column argument of None, the exact-match pass of
haltpoint_for_source_location compares the instruction's column against the
column type derived from 0 (the left edge), so an instruction at the
requested file and line whose column is an explicit nonzero value fails the
exact-match pass and can only satisfy the file-plus-line fallback pass. -/
theorem claim_C10 (matching_file_index : Option Nat) (line : Nat)
    (i : Instruction) (k : Nat) (hcol : i.column = ColumnType.Column k) :
    exact_match_pred matching_file_index line none i = false ∧
    (matching_file_index = some i.file_index → nonZeroNew line = i.line →
      line_match_pred matching_file_index line i = true) := by
  constructor
  · simp [exact_match_pred, hcol, ColumnType.fromNat]
  · intro h1 h2
    simp [line_match_pred, h1, h2]

/-- C10 witness: the concrete instruction iC10 at file 2, line 10, column 5
is rejected by the exact pass with column None and accepted by the
fallback pass. -/
theorem claim_C10_witness :
    iC10.column = ColumnType.Column 5 ∧
    exact_match_pred (some 2) 10 none iC10 = false ∧
    line_match_pred (some 2) 10 iC10 = true :=
  ⟨rfl, (claim_C10 (some 2) 10 iC10 5 rfl).1,
    (claim_C10 (some 2) 10 iC10 5 rfl).2 rfl rfl⟩

/-- C6 counterexample: on the row stream lsC6, whose second next_row result
is the collaborator error DebugError.other 7, from_line_sequence does not
propagate the error: it returns Ok with the partial sequence decoded from
the single row before the error (the `while let Ok(Some(..))` loop silently
stops at the Err). -/
theorem claim_C6_counterexample :
    from_line_sequence blockStepAll DW_LANG_C99 lsC6 = Except.ok seqC6 ∧
    from_line_sequence blockStepAll DW_LANG_C99 lsC6 ≠ Except.error (DebugError.other 7) := by
  refine ⟨rfl, ?_⟩
  intro h
  rw [show from_line_sequence blockStepAll DW_LANG_C99 lsC6 = Except.ok seqC6 from rfl] at h
  exact Except.noConfusion h

theorem decode_loop_error_cut (lang : Nat) :
    ∀ (pre : List LineRow) (e : DebugError) (rest : List (Except DebugError LineRow))
      (pc : Bool) (prev : Option LineRow) (last : Option Nat),
    decode_loop lang (pre.map Except.ok ++ Except.error e :: rest) pc prev last
      = decode_loop lang (pre.map Except.ok) pc prev last := by
  intro pre
  induction pre with
  | nil => intros; rfl
  | cons r pre ih =>
    intro e rest pc prev last
    simp only [List.map_cons, List.cons_append, decode_loop, List.append_eq]
    rw [ih]

/-- C6 (amended): an error reported by the decoding collaborator while
yielding the next row is swallowed, not propagated: from_line_sequence
behaves exactly as if the row stream had ended at the error, returning the
partial sequence built from the rows decoded before it. -/
theorem claim_C6_amended (step : BlockStep) (lang start stop : Nat)
    (pre : List LineRow) (e : DebugError) (rest : List (Except DebugError LineRow)) :
    from_line_sequence step lang
        { start := start, stop := stop, rows := pre.map Except.ok ++ Except.error e :: rest }
      = from_line_sequence step lang
        { start := start, stop := stop, rows := pre.map Except.ok } := by
  unfold from_line_sequence
  rw [decode_loop_error_cut]

/-- C7: the code of build_blocks and from_line_sequence applies no re-sort
after block construction, contradicting both the claim and the source's own
doc comment ("so we sort them to comply with the DWARF specification,
6.2.5").  With a block builder that emits blocks out of address order
(which the same doc comment says is likely), the final blocks vector stays
in construction order, descending: 512 then 256. -/
theorem claim_C7_bug :
    from_line_sequence stepC7 DW_LANG_C99 lsC7 = Except.ok seqC7 ∧
    seqC7.blocks.map block_start = [512, 256] ∧
    ¬ List.Pairwise (fun a b => a ≤ b) (seqC7.blocks.map block_start) := by
  refine ⟨rfl, rfl, ?_⟩
  intro h
  rw [show seqC7.blocks.map block_start = [512, 256] from rfl] at h
  rcases List.pairwise_cons.mp h with ⟨h1, -⟩
  exact absurd (h1 256 (by simp)) (by omega)

theorem decode_loop_last_halt (lang : Nat) :
    ∀ (rows : List (Except DebugError LineRow)) (pc : Bool) (prev : Option LineRow)
      (last : Option Nat),
    (decode_loop lang rows pc prev last).2
      = (processed_rows rows).foldl last_halt_step last := by
  intro rows
  induction rows with
  | nil => intros; rfl
  | cons x rest ih =>
    cases x with
    | error e => intros; rfl
    | ok r =>
      intro pc prev last
      cases hre : r.end_sequence
      · simp only [decode_loop, processed_rows, hre, Bool.false_eq_true, if_false,
          List.foldl_cons, last_halt_step]
        exact ih _ _ _
      · simp [decode_loop, processed_rows, hre]

/-- C8: the final last_halt_instruction of a decoded sequence is the result
of folding the processed (non-terminal) rows with the last-halt update: a
statement or epilogue-begin row overwrites the accumulator with its
address (last one wins), every other row leaves it unchanged, and the
end-of-sequence row is excluded from the processed rows, so it never
updates it. -/
theorem claim_C8 (step : BlockStep) (lang : Nat) (ls : LineSequenceModel)
    (s : Sequence) (h : from_line_sequence step lang ls = .ok s) :
    s.last_halt_instruction = (processed_rows ls.rows).foldl last_halt_step none := by
  simp only [from_line_sequence] at h
  split at h
  · exact Except.noConfusion h
  · cases h
    exact decode_loop_last_halt lang ls.rows false none none

/-- C8 witness: on the concrete stream lsC8 (statement at 100, plain row at
104, epilogue-begin at 108, end-of-sequence at 112) decoding succeeds and
the fold yields 108. -/
theorem claim_C8_witness :
    from_line_sequence blockStepAll DW_LANG_C99 lsC8 = Except.ok seqC8 ∧
    seqC8.last_halt_instruction = (processed_rows lsC8.rows).foldl last_halt_step none :=
  ⟨rfl, claim_C8 blockStepAll DW_LANG_C99 lsC8 seqC8 rfl⟩

theorem build_blocks_ok (step : BlockStep)
    (hstep : ∀ (l : List Instruction) (h : l ≠ []), ∃ r, step l h = Except.ok r) :
    ∀ (fuel : Nat) (l : List Instruction), ∃ bs, build_blocks step fuel l = .ok bs := by
  intro fuel
  induction fuel with
  | zero =>
    intro l
    cases l with
    | nil => exact ⟨[], rfl⟩
    | cons x xs => exact ⟨[], rfl⟩
  | succ f ih =>
    intro l
    cases l with
    | nil => exact ⟨[], rfl⟩
    | cons x xs =>
      obtain ⟨⟨b, rest⟩, hr⟩ := hstep (x :: xs) (List.cons_ne_nil x xs)
      obtain ⟨bs, hbs⟩ := ih rest.val
      exact ⟨b :: bs, by simp only [build_blocks, hr, hbs]⟩

theorem from_line_sequence_ok (step : BlockStep)
    (hstep : ∀ (l : List Instruction) (h : l ≠ []), ∃ r, step l h = Except.ok r)
    (lang : Nat) (ls : LineSequenceModel) :
    ∃ s, from_line_sequence step lang ls = .ok s := by
  obtain ⟨bs, hbs⟩ := build_blocks_ok step hstep
    (decode_loop lang ls.rows false none none).1.length
    (decode_loop lang ls.rows false none none).1
  refine ⟨{ address_range := (ls.start, ls.stop),
            last_halt_instruction := (decode_loop lang ls.rows false none none).2,
            blocks := bs }, ?_⟩
  simp only [from_line_sequence, hbs]

/-- C3: with the collaborators succeeding (unit resolution, sequence-list
decoding, and an infallible block builder), from_address fails exactly in
three cases — the unit has no line program, no sequence's [start, stop)
range contains the program counter, or the decoded sequence has zero
blocks — each time with a recoverable WarnAndContinue error, and otherwise
returns the decoded sequence; every error it returns is of the
WarnAndContinue form (never fatal). -/
theorem claim_C3 (step : BlockStep)
    (hstep : ∀ (l : List Instruction) (h : l ≠ []), ∃ r, step l h = Except.ok r)
    (debug_info : DebugInfoModel) (pc : Nat) (u : UnitInfoModel)
    (seqs : List LineSequenceModel)
    (hu : debug_info.compile_unit_info pc = .ok u)
    (hs : debug_info.line_sequences = .ok seqs) :
    (u.line_program = none →
      from_address step debug_info pc
        = .error (.warnAndContinue no_line_program_message)) ∧
    (u.line_program.isSome = true →
      seqs.find? (fun ls => decide (ls.start ≤ pc) && decide (pc < ls.stop)) = none →
      from_address step debug_info pc
        = .error (.warnAndContinue no_line_info_message)) ∧
    (∀ ls s, u.line_program.isSome = true →
      seqs.find? (fun ls2 => decide (ls2.start ≤ pc) && decide (pc < ls2.stop)) = some ls →
      from_line_sequence step u.language ls = .ok s →
      ((s.len = 0 →
          from_address step debug_info pc
            = .error (.warnAndContinue no_valid_halt_message)) ∧
        (s.len ≠ 0 → from_address step debug_info pc = .ok s))) ∧
    (∀ e, from_address step debug_info pc = .error e →
      ∃ msg, e = .warnAndContinue msg) := by
  refine ⟨?_, ?_, ?_, ?_⟩
  · intro hlp
    simp only [from_address, hu, hs, hlp]
  · intro hlp hfind
    obtain ⟨lp, hlp2⟩ := Option.isSome_iff_exists.mp hlp
    simp only [from_address, hu, hs, hlp2, hfind]
  · intro ls s hlp hfind hfls
    obtain ⟨lp, hlp2⟩ := Option.isSome_iff_exists.mp hlp
    constructor
    · intro hlen
      simp only [from_address, hu, hs, hlp2, hfind, hfls, hlen, if_pos]
    · intro hlen
      simp only [from_address, hu, hs, hlp2, hfind, hfls, if_neg hlen]
  · intro e he
    unfold from_address at he
    rw [hu, hs] at he
    cases hlp : u.line_program with
    | none =>
      simp only [hlp] at he
      exact ⟨no_line_program_message, (Except.error.inj he).symm⟩
    | some lp =>
      simp only [hlp] at he
      cases hfind : seqs.find? (fun ls => decide (ls.start ≤ pc) && decide (pc < ls.stop)) with
      | none =>
        simp only [hfind] at he
        exact ⟨no_line_info_message, (Except.error.inj he).symm⟩
      | some ls =>
        simp only [hfind] at he
        obtain ⟨s, hfls⟩ := from_line_sequence_ok step hstep u.language ls
        simp only [hfls] at he
        by_cases hlen : s.len = 0
        · rw [if_pos hlen] at he
          exact ⟨no_valid_halt_message, (Except.error.inj he).symm⟩
        · rw [if_neg hlen] at he
          exact Except.noConfusion he

/-- C3 witness: on the concrete collaborators diW3, program counter 999
lies in no sequence range, and from_address fails with the second
WarnAndContinue error. -/
theorem claim_C3_witness :
    from_address blockStepAll diW3 999
      = Except.error (.warnAndContinue no_line_info_message) :=
  (claim_C3 blockStepAll (fun _ _ => ⟨_, rfl⟩) diW3 999 uW3 [lsC7] rfl rfl).2.1
    rfl rfl

theorem exact_imp_line {matching_file_index : Option Nat} {line : Nat}
    {column : Option Nat} {i : Instruction}
    (h : exact_match_pred matching_file_index line column i = true) :
    line_match_pred matching_file_index line i = true := by
  simp only [exact_match_pred, Bool.and_eq_true] at h
  simp only [line_match_pred, Bool.and_eq_true]
  exact ⟨h.1.1, h.1.2⟩

theorem best_match_none {matching_file_index : Option Nat} {line : Nat}
    {column : Option Nat} {b : Block}
    (h : b.instructions.find? (line_match_pred matching_file_index line) = none) :
    best_match matching_file_index line column b = none := by
  have hx : b.instructions.find? (exact_match_pred matching_file_index line column) = none := by
    rw [List.find?_eq_none] at h ⊢
    intro x hxmem hex
    exact h x hxmem (exact_imp_line hex)
  unfold best_match
  simp only [hx, h]

theorem findSome?_first_match (resolve : Resolver) (s : Sequence) (fuel : Nat)
    (matching_file_index : Option Nat) (line : Nat) (column : Option Nat) :
    ∀ (pre : List Block) (b : Block) (post : List Block) (m : Instruction)
      (bp : VerifiedBreakpoint),
    (∀ p ∈ pre, p.instructions.find? (line_match_pred matching_file_index line) = none) →
    best_match matching_file_index line column b = some m →
    haltpoint_for_address resolve s fuel m.address = some bp →
    ((pre ++ b :: post).findSome? fun block =>
        (best_match matching_file_index line column block).bind fun matching_location =>
          haltpoint_for_address resolve s fuel matching_location.address) = some bp := by
  intro pre
  induction pre with
  | nil =>
    intro b post m bp _ hbm hres
    simp only [List.nil_append, List.findSome?_cons, hbm, Option.some_bind, hres]
  | cons p pre ih =>
    intro b post m bp hpre hbm hres
    rw [List.cons_append]
    rw [List.findSome?_cons]
    rw [best_match_none (hpre p (by simp))]
    simp only [Option.none_bind]
    exact ih b post m bp (fun q hq => hpre q (by simp [hq])) hbm hres

/-- C5: haltpoint_for_source_location iterates the blocks in address order
(list order, which the sortedness invariant makes address order); a block
with no file-plus-line match contributes nothing (so if no block matches on
file and line the query returns none), and the first block with a match —
exact on file, line and column first, else the first file-plus-line match —
determines the answer, which is produced by resolving that instruction's
address through haltpoint_for_address rather than returned directly. -/
theorem claim_C5 (resolve : Resolver) (s : Sequence) (fuel : Nat)
    (matching_file_index : Option Nat) (line : Nat) (column : Option Nat)
    (_hsorted : List.Pairwise (fun a b => block_start a ≤ block_start b) s.blocks) :
    ((∀ b ∈ s.blocks,
        b.instructions.find? (line_match_pred matching_file_index line) = none) →
      haltpoint_for_source_location resolve s fuel matching_file_index line column
        = none) ∧
    (∀ (pre post : List Block) (b : Block) (m : Instruction) (bp : VerifiedBreakpoint),
      s.blocks = pre ++ b :: post →
      (∀ p ∈ pre,
        p.instructions.find? (line_match_pred matching_file_index line) = none) →
      best_match matching_file_index line column b = some m →
      haltpoint_for_address resolve s fuel m.address = some bp →
      haltpoint_for_source_location resolve s fuel matching_file_index line column
        = some bp) := by
  constructor
  · intro hnone
    unfold haltpoint_for_source_location
    rw [List.findSome?_eq_none_iff]
    intro b hb
    simp [best_match_none (hnone b hb)]
  · intro pre post b m bp hsplit hpre hbm hres
    unfold haltpoint_for_source_location
    rw [hsplit]
    exact findSome?_first_match resolve s fuel matching_file_index line column
      pre b post m bp hpre hbm hres

/-- C5 witness: the double-match scenario — blkC5a and blkC5b both contain
an instruction at file 2 line 10 with different columns; the query with
column None returns the match of the first block in address order,
resolved through haltpoint_for_address. -/
theorem claim_C5_witness :
    List.Pairwise (fun a b => block_start a ≤ block_start b) sW5.blocks ∧
    haltpoint_for_source_location resolveW sW5 3 (some 2) 10 none = some bpW5 :=
  ⟨by decide,
    (claim_C5 resolveW sW5 3 (some 2) 10 none (by decide)).2
      [] [blkC5b] blkC5a iC5a bpW5 rfl (by simp) rfl rfl⟩

theorem find_linked_block_some {blocks : List Block} {la : Option Nat} {lb : Block}
    (h : find_linked_block blocks la = some lb) :
    lb ∈ blocks ∧ ∃ t, la = some t ∧ lb.contains_address t = true := by
  refine ⟨List.mem_of_find?_eq_some h, ?_⟩
  have hp := List.find?_some h
  cases la with
  | none => simp at hp
  | some t =>
    refine ⟨t, rfl, ?_⟩
    simpa using hp

theorem chain_loop_hit_mem {blocks : List Block} {address : Nat} {B : Block}
    (hnostep : ∀ b ∈ blocks, ∀ t, b.steps_to = some t → B.contains_address t = false) :
    ∀ (fuel : Nat) (la : Option Nat) (i : Instruction),
    (∀ t, la = some t → B.contains_address t = false) →
    chain_loop blocks address fuel la = .hit i →
    ∃ lb ∈ blocks, lb ≠ B ∧ i ∈ lb.instructions ∧ haltPred address i = true := by
  intro fuel
  induction fuel with
  | zero =>
    intro la i _ h
    simp [chain_loop] at h
  | succ f ih =>
    intro la i hla h
    rw [chain_loop] at h
    split at h
    · exact ChainOutcome.noConfusion h
    · rename_i lb hfb
      obtain ⟨hmem, t, hla_eq, hcont⟩ := find_linked_block_some hfb
      have hne : lb ≠ B := by
        intro he
        rw [he] at hcont
        rw [hla t hla_eq] at hcont
        exact Bool.noConfusion hcont
      split at h
      · rename_i i0 hfind
        cases h
        exact ⟨lb, hmem, hne, List.mem_of_find?_eq_some hfind, List.find?_some hfind⟩
      · exact ih lb.steps_to i (fun t2 ht2 => hnostep lb hmem t2 ht2) h

theorem foldl_min_le_init : ∀ (l : List Nat) (a : Nat), l.foldl min a ≤ a := by
  intro l
  induction l with
  | nil => intro a; simp
  | cons y ys ih =>
    intro a
    rw [List.foldl_cons]
    exact le_trans (ih (min a y)) (Nat.min_le_left a y)

theorem foldl_min_le_mem : ∀ (l : List Nat) (a x : Nat), x ∈ l → l.foldl min a ≤ x := by
  intro l
  induction l with
  | nil =>
    intro a x hx
    simp at hx
  | cons y ys ih =>
    intro a x hx
    rw [List.foldl_cons]
    rcases List.mem_cons.mp hx with rfl | hx2
    · exact le_trans (foldl_min_le_init ys (min a x)) (Nat.min_le_right a x)
    · exact ih (min a y) x hx2

theorem le_foldl_max_init : ∀ (l : List Nat) (a : Nat), a ≤ l.foldl max a := by
  intro l
  induction l with
  | nil => intro a; simp
  | cons y ys ih =>
    intro a
    rw [List.foldl_cons]
    exact le_trans (Nat.le_max_left a y) (ih (max a y))

theorem le_foldl_max_mem : ∀ (l : List Nat) (a x : Nat), x ∈ l → x ≤ l.foldl max a := by
  intro l
  induction l with
  | nil =>
    intro a x hx
    simp at hx
  | cons y ys ih =>
    intro a x hx
    rw [List.foldl_cons]
    rcases List.mem_cons.mp hx with rfl | hx2
    · exact le_trans (Nat.le_max_right a x) (le_foldl_max_init ys (max a x))
    · exact ih (max a y) x hx2

theorem Block.contains_of_mem {b : Block} {i : Instruction}
    (h : i ∈ b.instructions) : b.contains_address i.address = true := by
  cases hb : b.instructions with
  | nil =>
    rw [hb] at h
    simp at h
  | cons x xs =>
    have hin : b.included_addresses
        = some ((xs.map Instruction.address).foldl min x.address,
                (xs.map Instruction.address).foldl max x.address) := by
      unfold Block.included_addresses
      rw [hb]
    unfold Block.contains_address
    simp only [hin, Bool.and_eq_true, decide_eq_true_eq]
    rw [hb] at h
    rcases List.mem_cons.mp h with rfl | hmem
    · exact ⟨foldl_min_le_init _ _, le_foldl_max_init _ _⟩
    · have hmap : i.address ∈ xs.map Instruction.address :=
        List.mem_map_of_mem Instruction.address hmem
      exact ⟨foldl_min_le_mem _ _ _ hmap, le_foldl_max_mem _ _ _ hmap⟩

/-- C9: on a sequence whose steps_to links respect the acyclicity and
non-overlap invariants relative to the containing block B (no block's
steps_to target lies inside B, and no other block's range overlaps B's), a
successful haltpoint_for_next_block never returns a halt location belonging
to B: the returned address satisfies the same >= a rule, lies outside B,
and comes from an instruction of some other block reached through the
steps_to chain starting at B.steps_to; and when that chain ends without a
hit, the query returns nothing. -/
theorem claim_C9 (resolve : Resolver) (s : Sequence) (fuel address : Nat) (B : Block)
    (hB : s.blocks.find? (fun block => block.contains_address address) = some B)
    (hnostep : ∀ b ∈ s.blocks, ∀ t, b.steps_to = some t → B.contains_address t = false)
    (hdisj : ∀ b ∈ s.blocks, b ≠ B → ∀ x, b.contains_address x = true →
      B.contains_address x = false) :
    (∀ bp, haltpoint_for_next_block resolve s fuel address = some bp →
      address ≤ bp.address ∧ B.contains_address bp.address = false ∧
      ∃ lb ∈ s.blocks, lb ≠ B ∧ ∃ i ∈ lb.instructions,
        i.address = bp.address ∧ i.role.is_halt_location = true) ∧
    (chain_loop s.blocks address fuel B.steps_to = .ended →
      haltpoint_for_next_block resolve s fuel address = none) := by
  have hBmem : B ∈ s.blocks := List.mem_of_find?_eq_some hB
  constructor
  · intro bp hbp
    unfold haltpoint_for_next_block at hbp
    obtain ⟨i, hi, hbpa⟩ := breakpoint_address (h := hbp)
    unfold halt_instruction_for_next_block at hi
    rw [hB] at hi
    have hch : chain_loop s.blocks address fuel B.steps_to = .hit i := by
      cases hc : chain_loop s.blocks address fuel B.steps_to with
      | hit j =>
        simp only [hc] at hi
        cases hi
        rfl
      | ended =>
        simp only [hc] at hi
        exact Option.noConfusion hi
      | outOfFuel =>
        simp only [hc] at hi
        exact Option.noConfusion hi
    obtain ⟨lb, hlbmem, hlbne, himem, hpred⟩ :=
      chain_loop_hit_mem hnostep fuel B.steps_to i
        (fun t ht => hnostep B hBmem t ht) hch
    obtain ⟨hle, hhalt⟩ := haltPred_eq_true hpred
    refine ⟨?_, ?_, lb, hlbmem, hlbne, i, himem, hbpa.symm, hhalt⟩
    · omega
    · rw [hbpa]
      exact hdisj lb hlbmem hlbne i.address (Block.contains_of_mem himem)
  · intro hend
    unfold haltpoint_for_next_block halt_instruction_for_next_block
    simp [hB, hend]

/-- C9 witness: on the concrete two-block sequence sW9 (no overlap, no
steps_to target inside the containing block), haltpoint_for_next_block at
100 answers from the linked block blkW9b, not from blkW9a. -/
theorem claim_C9_witness :
    sW9.blocks.find? (fun block => block.contains_address 100) = some blkW9a ∧
    (100 ≤ bpW9.address ∧ blkW9a.contains_address bpW9.address = false ∧
      ∃ lb ∈ sW9.blocks, lb ≠ blkW9a ∧ ∃ i ∈ lb.instructions,
        i.address = bpW9.address ∧ i.role.is_halt_location = true) := by
  refine ⟨by decide, ?_⟩
  refine (claim_C9 resolveW sW9 3 100 blkW9a (by decide) ?_ ?_).1 bpW9 (by decide)
  · intro b hb t ht
    rcases List.mem_cons.mp (show b ∈ blkW9a :: [blkW9b] from hb) with rfl | hb2
    · simp only [blkW9a] at ht
      cases ht
      decide
    · rcases List.mem_cons.mp hb2 with rfl | hb3
      · simp only [blkW9b] at ht
        exact Option.noConfusion ht
      · simp at hb3
  · intro b hb hne x hx
    rcases List.mem_cons.mp (show b ∈ blkW9a :: [blkW9b] from hb) with rfl | hb2
    · exact absurd rfl hne
    · rcases List.mem_cons.mp hb2 with rfl | hb3
      · have hx2 : x = 200 := by
          simp only [blkW9b, Block.contains_address, Block.included_addresses,
            List.map_nil, List.foldl_nil, Bool.and_eq_true, decide_eq_true_eq] at hx
          omega
        subst hx2
        decide
      · simp at hb3
